import Mathlib

/-!
Verification development for the polysim repository (crate `polysim-core`).

The Rust sources are shallowly embedded: strings become `List Char`,
`usize`/`u32` become `Nat` with explicit `% 2^64` / `% 2^32` where the code
casts, fallible functions return `Except PolySimError`, and `f64` mass
arithmetic is embedded over `Rat` (the code performs only additions,
multiplications and comparisons of decimal constants).

Embedded functions (source file `crates/polysim-core`):
  * `builder/linear.rs`: `max_ring_number`, `renumber_ring_closures`,
    `build_linear_smiles`, `find_first_stochastic`, `resolve_n`,
    `LinearBuilder::homopolymer`
  * `error.rs`: `PolySimError`
  * `builder/strategy.rs`: `BuildStrategy`
  * `properties/formula.rs`: `element_symbol`, `hill_notation`,
    `molecular_formula`, `total_atom_count`
  * `properties/molecular_weight.rs`: `average_mass`, `monoisotopic_mass`,
    `most_abundant_isotope_mass`
-/

/-- Rust's `char::is_ascii_digit`: the code point lies in `'0'..='9'`
(48 to 57). -/
def isDig (c : Char) : Bool := 48 ≤ c.toNat && c.toNat ≤ 57

/-- Rust's `format!("{new_n:02}")`: decimal digits of `n`, zero-padded to a
minimum width of two characters (three or more characters when `n ≥ 100`). -/
def pad2 (n : Nat) : List Char :=
  if n ≤ 99 then [Nat.digitChar (n / 10), Nat.digitChar (n % 10)]
  else (toString n).toList

/-- How `renumber_ring_closures` emits a single-digit marker rewritten to
value `v`: `char::from_digit` when `v ≤ 9`, otherwise `'%'` plus `{:02}`. -/
def emitDigit (v : Nat) : List Char :=
  if v ≤ 9 then [Nat.digitChar v] else '%' :: pad2 v

/-- The scanning loop of `max_ring_number` (builder/linear.rs).  The `Bool`
argument is the `in_bracket` flag.  A `'%'` consumes the next two characters
(missing characters default to `'0'`, which is a digit). -/
def maxRingAux : Bool → List Char → Nat
  | _, [] => 0
  | inB, c :: rest =>
    if c = '[' then maxRingAux true rest
    else if c = ']' then maxRingAux false rest
    else if inB then maxRingAux true rest
    else if c = '%' then
      match rest with
      | d1 :: d2 :: rest2 =>
        if isDig d1 && isDig d2 then
          Nat.max (10 * (d1.toNat - 48) + (d2.toNat - 48)) (maxRingAux false rest2)
        else maxRingAux false rest2
      | [d1] => if isDig d1 then 10 * (d1.toNat - 48) else 0
      | [] => 0
    else if isDig c then Nat.max (c.toNat - 48) (maxRingAux false rest)
    else maxRingAux false rest

/-- `max_ring_number(smiles)`: highest ring-closure number used; digits inside
`[...]` are ignored. -/
def maxRing (smiles : List Char) : Nat := maxRingAux false smiles

/-- The scanning loop of `renumber_ring_closures` for a non-zero offset.
Mirrors the Rust `match` arm for arm: `'['` / `']'` toggle the bracket flag
and are copied; characters inside brackets are copied; `'%'` consumes two
characters (defaulting to `'0'` past the end) and, when both are digits,
re-emits the shifted value in `{:02}` form; a bare digit is shifted and
re-emitted (single digit if `≤ 9`, else `%dd`); everything else is copied. -/
def renAux (off : Nat) : Bool → List Char → List Char
  | _, [] => []
  | inB, c :: rest =>
    if c = '[' then c :: renAux off true rest
    else if c = ']' then c :: renAux off false rest
    else if inB then c :: renAux off true rest
    else if c = '%' then
      match rest with
      | d1 :: d2 :: rest2 =>
        if isDig d1 && isDig d2 then
          '%' :: pad2 (10 * (d1.toNat - 48) + (d2.toNat - 48) + off)
            ++ renAux off false rest2
        else '%' :: d1 :: d2 :: renAux off false rest2
      | [d1] =>
        if isDig d1 then '%' :: pad2 (10 * (d1.toNat - 48) + off)
        else ['%', d1, '0']
      | [] => '%' :: pad2 off
    else if isDig c then emitDigit (c.toNat - 48 + off) ++ renAux off false rest
    else c :: renAux off false rest

/-- `renumber_ring_closures(smiles, offset)`: identity when `offset = 0`,
otherwise the bracket-aware rewriting scan. -/
def renumberRC (smiles : List Char) (off : Nat) : List Char :=
  if off = 0 then smiles else renAux off false smiles

/-- `usize::MAX` on the 64-bit targets the crate builds for. -/
def usizeMax : Nat := 2 ^ 64 - 1

/-- `cycle_length` in `build_linear_smiles`: `usize::MAX` when the fragment
has no ring closures, else `99 / max_ring` (integer division). -/
def cycleLen (f : List Char) : Nat :=
  if maxRing f = 0 then usizeMax else 99 / maxRing f

/-- The offset used for copy `i` in `build_linear_smiles`:
`slot = i % cycle_length`, then `slot as u32 * max_ring` (the `as u32` cast
truncates modulo `2^32`). -/
def offsetFor (f : List Char) (i : Nat) : Nat :=
  ((i % cycleLen f) % 2 ^ 32) * maxRing f

/-- Concatenation of a list of character lists (the `result.push_str` loop
appends each copy to one output buffer). -/
def concatAll : List (List Char) → List Char
  | [] => []
  | x :: xs => x ++ concatAll xs

/-- All errors of `error.rs` (`PolySimError`).  Error message payloads are
kept verbatim. -/
inductive PolySimError where
  | parse (msg : String)
  | buildStrategy (msg : String)
  | noStochasticObject
  | repeatUnitCount (architecture : String) (got : Nat) (need : Nat)
  | invalidFractions (sum : Rat)
  | ringNumberOverflow (maxRingArg : Nat) (maxSupported : Nat)
deriving DecidableEq, Repr

/-- `build_linear_smiles(smiles_raw, n)`: fails with `RingNumberOverflow`
when the fragment alone uses a ring number above 99, otherwise concatenates
the `n` renumbered copies (copy `i` at offset `offsetFor f i`). -/
def buildLinear (f : List Char) (n : Nat) : Except PolySimError (List Char) :=
  if maxRing f > 99 then
    .error (.ringNumberOverflow (maxRing f) 99)
  else
    .ok (concatAll ((List.range n).map (fun i => renumberRC f (offsetFor f i))))

/-- `BuildStrategy` (builder/strategy.rs).  The `f64` targets are embedded as
rationals; `resolve_n` never inspects them. -/
inductive BuildStrategy where
  | byRepeatCount (n : Nat)
  | byTargetMn (target : Rat)
  | byExactMass (target : Rat)

/-- A stochastic object, reduced to the data `homopolymer` reads from it: the
raw text (`smiles_raw`) of each repeat unit. -/
structure StochasticObject where
  repeatUnits : List (List Char)

/-- A BigSMILES segment: plain SMILES text or a stochastic object. -/
inductive BigSmilesSegment where
  | smiles (raw : List Char)
  | stochastic (obj : StochasticObject)

/-- A parsed BigSMILES: its ordered segments. -/
structure BigSmiles where
  segments : List BigSmilesSegment

/-- Recursion behind `find_first_stochastic`. -/
def findStochAux : List BigSmilesSegment → Option StochasticObject
  | [] => none
  | .stochastic o :: _ => some o
  | .smiles _ :: rest => findStochAux rest

/-- `find_first_stochastic(bs)`: the first stochastic segment, if any. -/
def findFirstStochastic (bs : BigSmiles) : Option StochasticObject :=
  findStochAux bs.segments

/-- The exact message `resolve_n` returns for the mass-based strategies. -/
def notImplMsg : String :=
  "ByTargetMn / ByExactMass require molecular weight calculation (not yet implemented)"

/-- `LinearBuilder::resolve_n`: passes a requested repeat count through and
rejects both mass-based strategies as unimplemented. -/
def resolveN : BuildStrategy → Except PolySimError Nat
  | .byRepeatCount n => .ok n
  | .byTargetMn _ => .error (.buildStrategy notImplMsg)
  | .byExactMass _ => .error (.buildStrategy notImplMsg)

/-- `PolymerChain` (polymer/chain.rs). -/
structure PolymerChain where
  smiles : List Char
  repeatCount : Nat
  mn : Rat
deriving DecidableEq, Repr

/-- `LinearBuilder::homopolymer`: find the first stochastic object, require
exactly one repeat unit, resolve `n` from the strategy, reject `n = 0`,
build the chain text, and return the chain with `mn = 0.0` (the source
comment: "Mn = 0.0 — MW calculation not yet implemented"). -/
def homopolymer (bs : BigSmiles) (strategy : BuildStrategy) :
    Except PolySimError PolymerChain :=
  match findFirstStochastic bs with
  | none => .error .noStochasticObject
  | some stoch =>
    if stoch.repeatUnits.length ≠ 1 then
      .error (.repeatUnitCount ("homopolymer") stoch.repeatUnits.length 1)
    else
      match resolveN strategy with
      | .error e => .error e
      | .ok n =>
        if n = 0 then
          .error (.buildStrategy ("repeat count must be ≥ 1"))
        else
          match buildLinear (stoch.repeatUnits.headD []) n with
          | .error e => .error e
          | .ok s => .ok ⟨s, n, 0⟩

/-- One parsed atom node as exposed by the external structure parser
(`opensmiles`): its element's atomic number, its implicit/explicit hydrogen
count, and — when the atom was written with an explicit isotope — that
isotope's exact mass (`atom.mass()` then returns it instead of the standard
mass). -/
structure AtomNode where
  atomicNumber : Nat
  hydrogens : Nat
  isotope : Option Rat
deriving DecidableEq, Repr

/-- `element_symbol` (properties/formula.rs): IUPAC symbol for the common
polymer-chemistry elements, `None` for unknown or rare elements. -/
def elementSymbol (atomicNumber : Nat) : Option String :=
  if atomicNumber = 1 then some ("H")
  else if atomicNumber = 5 then some ("B")
  else if atomicNumber = 6 then some ("C")
  else if atomicNumber = 7 then some ("N")
  else if atomicNumber = 8 then some ("O")
  else if atomicNumber = 9 then some ("F")
  else if atomicNumber = 14 then some ("Si")
  else if atomicNumber = 15 then some ("P")
  else if atomicNumber = 16 then some ("S")
  else if atomicNumber = 17 then some ("Cl")
  else if atomicNumber = 35 then some ("Br")
  else if atomicNumber = 53 then some ("I")
  else none

/-- `*counts.entry(sym).or_insert(0) += k` on a `BTreeMap<&str, usize>`:
the association list is kept sorted by key, an existing key is incremented,
a missing key is inserted in order. -/
def bumpCount : List (String × Nat) → String → Nat → List (String × Nat)
  | [], sym, k => [(sym, k)]
  | (s, c) :: rest, sym, k =>
    if sym = s then (s, c + k) :: rest
    else if sym < s then (sym, k) :: (s, c) :: rest
    else (s, c) :: bumpCount rest sym k

/-- One iteration of the `molecular_formula` tally loop: wildcard atoms
(atomic number 0) are skipped entirely (`continue`); a known element symbol
is counted once; the node's hydrogens are added under `"H"` when positive. -/
def countStep (m : List (String × Nat)) (node : AtomNode) : List (String × Nat) :=
  if node.atomicNumber = 0 then m
  else
    let m1 := match elementSymbol node.atomicNumber with
      | some sym => bumpCount m sym 1
      | none => m
    if node.hydrogens > 0 then bumpCount m1 ("H") node.hydrogens else m1

/-- The per-element counts `molecular_formula` accumulates over the parsed
nodes of a structure. -/
def formulaCounts (mol : List AtomNode) : List (String × Nat) :=
  mol.foldl countStep []

/-- Sum of all counts held in the tally (the total the Formula Calculator
reports across its elements, hydrogens included). -/
def sumCounts (m : List (String × Nat)) : Nat :=
  (m.map (fun p => p.2)).sum

/-- Rendering of one element of the formula: symbol, then the count when it
exceeds 1. -/
def renderOne (p : String × Nat) : String :=
  p.1 ++ (if p.2 > 1 then toString p.2 else "")

/-- `hill_notation` (properties/formula.rs): carbon first, then hydrogen,
then the remaining symbols in ascending order; without carbon, everything in
ascending order.  The tally is already key-sorted. -/
def hillNotation (counts : List (String × Nat)) : String :=
  if counts.any (fun p => p.1 = "C") then
    (match counts.lookup ("C") with
      | some n => renderOne ("C", n)
      | none => "")
    ++ (match counts.lookup ("H") with
      | some n => renderOne ("H", n)
      | none => "")
    ++ String.join ((counts.filter
        (fun p => p.1 ≠ "C" && p.1 ≠ "H")).map renderOne)
  else
    String.join (counts.map renderOne)

/-- `molecular_formula` on an already-parsed structure. -/
def molecularFormula (mol : List AtomNode) : String :=
  hillNotation (formulaCounts mol)

/-- `total_atom_count` on an already-parsed structure: one per node plus its
hydrogens. -/
def totalAtomCount (mol : List AtomNode) : Nat :=
  (mol.map (fun node => 1 + node.hydrogens)).sum

/-- `H_AVERAGE_MASS` (properties/molecular_weight.rs). -/
def hAverageMass : Rat := 1.008

/-- `H_MONO_MASS` (properties/molecular_weight.rs). -/
def hMonoMass : Rat := 1.00782503207

/-- Modelled from the spec: the external structure parser's element mass
table ("static lookup from atomic number to (average mass, ...)"), i.e. the
standard (average) atomic mass `atom.mass()` and `element.standard_mass()`
return when no explicit isotope is given.  The `opensmiles` crate is not part
of this repository; IUPAC standard atomic weights are used for the elements
the repository's own isotope table covers, 0 for the wildcard, and 0 as an
arbitrary placeholder for elements no claim depends on. -/
def standardMass (atomicNumber : Nat) : Rat :=
  if atomicNumber = 0 then 0
  else if atomicNumber = 1 then 1.008
  else if atomicNumber = 5 then 10.811
  else if atomicNumber = 6 then 12.011
  else if atomicNumber = 7 then 14.007
  else if atomicNumber = 8 then 15.999
  else if atomicNumber = 9 then 18.998403163
  else if atomicNumber = 14 then 28.085
  else if atomicNumber = 15 then 30.973761998
  else if atomicNumber = 16 then 32.06
  else if atomicNumber = 17 then 35.45
  else if atomicNumber = 35 then 79.904
  else if atomicNumber = 53 then 126.90447
  else 0

/-- `most_abundant_isotope_mass` (properties/molecular_weight.rs): hard-coded
most-abundant-isotope masses for the common elements, wildcard 0, and the
standard mass as fallback for rare elements. -/
def mostAbundantIsotopeMass (atomicNumber : Nat) : Rat :=
  if atomicNumber = 0 then 0
  else if atomicNumber = 1 then hMonoMass
  else if atomicNumber = 5 then 11.0093054
  else if atomicNumber = 6 then 12.0
  else if atomicNumber = 7 then 14.0030740048
  else if atomicNumber = 8 then 15.9949146221
  else if atomicNumber = 9 then 18.9984032
  else if atomicNumber = 14 then 27.9769265325
  else if atomicNumber = 15 then 30.97376163
  else if atomicNumber = 16 then 31.97207100
  else if atomicNumber = 17 then 34.96885268
  else if atomicNumber = 35 then 78.9183371
  else if atomicNumber = 53 then 126.904468
  else standardMass atomicNumber

/-- `node.atom().mass()`: the explicit isotope's mass when one was written,
otherwise the element's standard mass. -/
def atomMass (node : AtomNode) : Rat :=
  match node.isotope with
  | some m => m
  | none => standardMass node.atomicNumber

/-- One node's contribution to `average_mass`. -/
def nodeAvgMass (node : AtomNode) : Rat :=
  atomMass node + (node.hydrogens : Rat) * hAverageMass

/-- One node's contribution to `monoisotopic_mass`: the explicit isotope mass
when specified, else the most abundant isotope's mass; hydrogens at the
proton mass. -/
def nodeMonoMass (node : AtomNode) : Rat :=
  (match node.isotope with
    | some m => m
    | none => mostAbundantIsotopeMass node.atomicNumber)
  + (node.hydrogens : Rat) * hMonoMass

/-- `average_mass` on an already-parsed structure (the `fold` of
properties/molecular_weight.rs). -/
def averageMass (mol : List AtomNode) : Rat :=
  mol.foldl (fun acc node => acc + nodeAvgMass node) 0

/-- `monoisotopic_mass` on an already-parsed structure. -/
def monoisotopicMass (mol : List AtomNode) : Rat :=
  mol.foldl (fun acc node => acc + nodeMonoMass node) 0

/-- Well-formedness of a prefix with respect to the shared bracket-aware scan
of builder/linear.rs: scanning the list from the given `in_bracket` state
consumes it exactly (no `'%'` two-character lookahead runs past its end) and
finishes outside a bracket.  Every self-contained fragment prefix that ends
at top level satisfies this. -/
def scanOk : Bool → List Char → Bool
  | inB, [] => !inB
  | inB, c :: rest =>
    if c = '[' then scanOk true rest
    else if c = ']' then scanOk false rest
    else if inB then scanOk true rest
    else if c = '%' then
      match rest with
      | _ :: _ :: rest2 => scanOk false rest2
      | _ => false
    else scanOk false rest

/-- The elements of the hard-coded most-abundant-isotope table whose listed
isotope mass lies strictly below the element's standard atomic mass: all of
them except hydrogen (not a heavy atom), boron (¹¹B is heavier than boron's
standard mass) and fluorine (the hard-coded ¹⁹F value exceeds the standard
mass by 4·10⁻⁸). -/
def strictElems : List Nat := [6, 7, 8, 14, 15, 16, 17, 35, 53]

/-! ### Basic character and digit lemmas -/

theorem isDig_bounds (c : Char) (h : isDig c = true) :
    48 ≤ c.toNat ∧ c.toNat ≤ 57 := by
  simpa [isDig, Bool.and_eq_true, decide_eq_true_iff] using h

theorem isDig_val_le (c : Char) (h : isDig c = true) : c.toNat - 48 ≤ 9 := by
  have := isDig_bounds c h
  omega

theorem isDig_ne_special (c : Char) (h : isDig c = true) :
    c ≠ '[' ∧ c ≠ ']' ∧ c ≠ '%' := by
  have hb := isDig_bounds c h
  refine ⟨?_, ?_, ?_⟩ <;> intro he <;> subst he <;> revert hb <;> decide

theorem digitChar_spec (d : Nat) (h : d < 10) :
    isDig (Nat.digitChar d) = true ∧ (Nat.digitChar d).toNat = 48 + d := by
  interval_cases d <;> exact ⟨by decide, by decide⟩

theorem pad2_eq (v : Nat) (h : v ≤ 99) :
    pad2 v = [Nat.digitChar (v / 10), Nat.digitChar (v % 10)] := by
  simp [pad2, h]

/-! ### Generic fold and sum lemmas -/

theorem foldl_add_eq {α : Type} (f : α → Rat) (l : List α) (c : Rat) :
    l.foldl (fun acc x => acc + f x) c = c + (l.map f).sum := by
  induction l generalizing c with
  | nil => simp
  | cons x xs ih => simp [ih, add_assoc]

theorem averageMass_eq_sum (mol : List AtomNode) :
    averageMass mol = (mol.map nodeAvgMass).sum := by
  simpa using foldl_add_eq nodeAvgMass mol 0

theorem monoisotopicMass_eq_sum (mol : List AtomNode) :
    monoisotopicMass mol = (mol.map nodeMonoMass).sum := by
  simpa using foldl_add_eq nodeMonoMass mol 0

theorem sum_map_lt_of_mem {α : Type} (f g : α → Rat) (l : List α) (x : α)
    (hx : x ∈ l) (hlt : f x < g x) (hle : ∀ y ∈ l, f y ≤ g y) :
    (l.map f).sum < (l.map g).sum := by
  induction l with
  | nil => cases hx
  | cons a as ih =>
    rcases List.mem_cons.mp hx with rfl | hmem
    · have hrest : (as.map f).sum ≤ (as.map g).sum :=
        List.sum_le_sum (fun y hy => hle y (List.mem_cons_of_mem _ hy))
      simpa using add_lt_add_of_lt_of_le hlt hrest
    · have hhead : f a ≤ g a := hle a (List.mem_cons_self a as)
      have := ih hmem (fun y hy => hle y (List.mem_cons_of_mem _ hy))
      simpa using add_lt_add_of_le_of_lt hhead this

/-! ### concatAll lemmas -/

theorem concatAll_append (a b : List (List Char)) :
    concatAll (a ++ b) = concatAll a ++ concatAll b := by
  induction a with
  | nil => rfl
  | cons x xs ih => simp [concatAll, ih]

theorem map_const_eq_replicate {α : Type} (l : List α) (f : List Char) :
    l.map (fun _ => f) = List.replicate l.length f := by
  induction l with
  | nil => rfl
  | cons x xs ih => simp [ih, List.replicate_succ]

/-! ### Formula tally lemmas -/

theorem sumCounts_bump (m : List (String × Nat)) (sym : String) (k : Nat) :
    sumCounts (bumpCount m sym k) = sumCounts m + k := by
  induction m with
  | nil => simp [bumpCount, sumCounts]
  | cons p rest ih =>
    obtain ⟨s, c⟩ := p
    by_cases h1 : sym = s
    · simp [bumpCount, h1, sumCounts]; omega
    · by_cases h2 : sym < s
      · simp [bumpCount, h1, h2, sumCounts]; omega
      · simp only [bumpCount, if_neg h1, if_neg h2, sumCounts, List.map_cons,
          List.sum_cons] at ih ⊢
        omega

theorem sumCounts_countStep (m : List (String × Nat)) (node : AtomNode)
    (h0 : node.atomicNumber ≠ 0) (hsym : (elementSymbol node.atomicNumber).isSome) :
    sumCounts (countStep m node) = sumCounts m + (1 + node.hydrogens) := by
  obtain ⟨sym, hs⟩ := Option.isSome_iff_exists.mp hsym
  by_cases hh : node.hydrogens > 0
  · simp [countStep, h0, hs, hh, sumCounts_bump]; omega
  · have hz : node.hydrogens = 0 := by omega
    simp [countStep, h0, hs, hh, sumCounts_bump, hz]

theorem sumCounts_foldl (mol : List AtomNode)
    (h : ∀ node ∈ mol, node.atomicNumber ≠ 0 ∧
      (elementSymbol node.atomicNumber).isSome) :
    ∀ m, sumCounts (mol.foldl countStep m) = sumCounts m + totalAtomCount mol := by
  induction mol with
  | nil => intro m; simp [totalAtomCount]
  | cons node rest ih =>
    intro m
    have hn := h node (List.mem_cons_self node rest)
    have hrest := fun x hx => h x (List.mem_cons_of_mem _ hx)
    simp only [List.foldl_cons]
    rw [ih hrest, sumCounts_countStep m node hn.1 hn.2]
    simp [totalAtomCount]
    omega

/-! ### Claim theorems -/

/-- C1 (code bug): the claim — backed by the repository's own test suite
(`tests/molecular_weight.rs`, `by_target_mn_*`, `by_exact_mass_*`) and the
`lib.rs` quick-start doc — requires `ByTargetMn` / `ByExactMass` to resolve a
repeat count by the linear-slope method.  The `resolve_n` actually in
`builder/linear.rs` instead rejects both strategies before any chain is
built: for every single-repeat-unit fragment and every target, `homopolymer`
returns the `BuildStrategy("ByTargetMn / ByExactMass require molecular
weight calculation (not yet implemented)")` error. -/
theorem C1_mass_strategies_rejected (frag : List Char) (target : Rat) :
    homopolymer ⟨[.stochastic ⟨[frag]⟩]⟩ (.byTargetMn target)
      = .error (.buildStrategy notImplMsg)
    ∧ homopolymer ⟨[.stochastic ⟨[frag]⟩]⟩ (.byExactMass target)
      = .error (.buildStrategy notImplMsg) :=
  ⟨rfl, rfl⟩

/-- C5: `ByRepeatCount(0)` on a valid single-repeat-unit fragment fails with
the invalid-build-strategy error (and no chain is built), and a stochastic
object with two repeat-unit fragments requested as a homopolymer fails with
the repeat-unit-count mismatch error reporting `got = 2`, `need = 1`. -/
theorem C5_error_scenarios (frag : List Char) :
    homopolymer ⟨[.stochastic ⟨[frag]⟩]⟩ (.byRepeatCount 0)
      = .error (.buildStrategy ("repeat count must be ≥ 1"))
    ∧ ∀ (f1 f2 : List Char) (strategy : BuildStrategy),
      homopolymer ⟨[.stochastic ⟨[f1, f2]⟩]⟩ strategy
        = .error (.repeatUnitCount ("homopolymer") 2 1) :=
  ⟨rfl, fun _ _ _ => rfl⟩

/-! ### Mass comparison lemmas -/

theorem hydroMono_le_hydroAvg (h : Nat) :
    (h : Rat) * hMonoMass ≤ (h : Rat) * hAverageMass := by
  apply mul_le_mul_of_nonneg_left ?_ (by positivity)
  norm_num [hMonoMass, hAverageMass]

theorem mono_le_standard (a : Nat) (h5 : a ≠ 5) (h9 : a ≠ 9) :
    mostAbundantIsotopeMass a ≤ standardMass a := by
  by_cases h0 : a = 0
  · subst h0; norm_num [mostAbundantIsotopeMass, standardMass]
  by_cases h1 : a = 1
  · subst h1; norm_num [mostAbundantIsotopeMass, standardMass, hMonoMass]
  by_cases h6 : a = 6
  · subst h6; norm_num [mostAbundantIsotopeMass, standardMass]
  by_cases h7 : a = 7
  · subst h7; norm_num [mostAbundantIsotopeMass, standardMass]
  by_cases h8 : a = 8
  · subst h8; norm_num [mostAbundantIsotopeMass, standardMass]
  by_cases h14 : a = 14
  · subst h14; norm_num [mostAbundantIsotopeMass, standardMass]
  by_cases h15 : a = 15
  · subst h15; norm_num [mostAbundantIsotopeMass, standardMass]
  by_cases h16 : a = 16
  · subst h16; norm_num [mostAbundantIsotopeMass, standardMass]
  by_cases h17 : a = 17
  · subst h17; norm_num [mostAbundantIsotopeMass, standardMass]
  by_cases h35 : a = 35
  · subst h35; norm_num [mostAbundantIsotopeMass, standardMass]
  by_cases h53 : a = 53
  · subst h53; norm_num [mostAbundantIsotopeMass, standardMass]
  have hm : mostAbundantIsotopeMass a = standardMass a := by
    simp [mostAbundantIsotopeMass, h0, h1, h5, h6, h7, h8, h9, h14, h15, h16,
      h17, h35, h53]
  exact le_of_eq hm

theorem mono_lt_standard_strict (a : Nat) (h : a ∈ strictElems) :
    mostAbundantIsotopeMass a < standardMass a := by
  fin_cases h <;> norm_num [mostAbundantIsotopeMass, standardMass]

theorem nodeMono_le_nodeAvg (node : AtomNode)
    (h : node.isotope.isSome ∨ (node.atomicNumber ≠ 5 ∧ node.atomicNumber ≠ 9)) :
    nodeMonoMass node ≤ nodeAvgMass node := by
  cases hiso : node.isotope with
  | some m =>
    simp only [nodeMonoMass, nodeAvgMass, atomMass, hiso]
    exact add_le_add_left (hydroMono_le_hydroAvg node.hydrogens) m
  | none =>
    rcases h with hs | ⟨h5, h9⟩
    · rw [hiso] at hs; cases hs
    · simp only [nodeMonoMass, nodeAvgMass, atomMass, hiso]
      exact add_le_add (mono_le_standard node.atomicNumber h5 h9)
        (hydroMono_le_hydroAvg node.hydrogens)

theorem nodeMono_lt_nodeAvg (node : AtomNode) (hiso : node.isotope = none)
    (hmem : node.atomicNumber ∈ strictElems) :
    nodeMonoMass node < nodeAvgMass node := by
  simp only [nodeMonoMass, nodeAvgMass, atomMass, hiso]
  exact add_lt_add_of_lt_of_le (mono_lt_standard_strict node.atomicNumber hmem)
    (hydroMono_le_hydroAvg node.hydrogens)

/-- C2 (counterexample): the claim extends the cross-check invariant to
structures containing wildcard atoms; but `molecular_formula` skips a
wildcard atom entirely (`continue`) while `total_atom_count` counts every
node, so a structure consisting of one wildcard atom yields total 1 against
formula-count sum 0. -/
theorem C2_counterexample :
    totalAtomCount [⟨0, 0, none⟩] ≠ sumCounts (formulaCounts [⟨0, 0, none⟩]) := by
  decide

/-- C2 (amended): for every parsed structure whose atoms are all
non-wildcard and lie in the common-element table of `element_symbol`,
`total_atom_count` equals the sum of all per-element counts (hydrogens
included) that `molecular_formula` tallies.  Wildcard atoms and heavy atoms
outside the table each make `total_atom_count` exceed the formula sum. -/
theorem C2_total_eq_formula_sum (mol : List AtomNode)
    (h : ∀ node ∈ mol, node.atomicNumber ≠ 0 ∧
      (elementSymbol node.atomicNumber).isSome) :
    totalAtomCount mol = sumCounts (formulaCounts mol) := by
  have := sumCounts_foldl mol h []
  rw [formulaCounts, this]
  simp [sumCounts]

/-- Witness for C2: a two-carbon ethane-like structure (each carbon with
three hydrogens) satisfies the hypotheses, and both sides evaluate to 8. -/
theorem C2_witness :
    totalAtomCount [⟨6, 3, none⟩, ⟨6, 3, none⟩]
      = sumCounts (formulaCounts [⟨6, 3, none⟩, ⟨6, 3, none⟩]) :=
  C2_total_eq_formula_sum _ (by decide)

/-- C3 (counterexample): the claim extends strict inequality to structures
whose heavy atoms carry explicit isotope annotations; but for an
explicitly-annotated atom both calculators use the explicit isotope mass
verbatim, so a single hydrogen-free `[13C]` atom gives monoisotopic mass
equal to — not below — the average mass. -/
theorem C3_counterexample :
    ¬ (monoisotopicMass [⟨6, 0, some (13.003355 : Rat)⟩]
        < averageMass [⟨6, 0, some (13.003355 : Rat)⟩]) := by
  simp [monoisotopicMass, averageMass, nodeMonoMass, nodeAvgMass, atomMass]

/-- C3 (amended): monoisotopic mass is strictly below average mass for every
structure that contains at least one isotope-free heavy atom from the
hard-coded table other than boron and fluorine, provided no atom is an
isotope-free boron or fluorine (for those two the hard-coded isotope mass
exceeds the element's standard mass, modelled here by IUPAC standard atomic
weights; explicitly annotated atoms and out-of-table elements contribute
equally to both masses, hence only weakly). -/
theorem C3_mono_lt_avg (mol : List AtomNode)
    (hall : ∀ node ∈ mol, node.isotope.isSome ∨
      (node.atomicNumber ≠ 5 ∧ node.atomicNumber ≠ 9))
    (hex : ∃ node ∈ mol, node.isotope = none ∧ node.atomicNumber ∈ strictElems) :
    monoisotopicMass mol < averageMass mol := by
  obtain ⟨x, hx, hxiso, hxmem⟩ := hex
  rw [monoisotopicMass_eq_sum, averageMass_eq_sum]
  exact sum_map_lt_of_mem nodeMonoMass nodeAvgMass mol x hx
    (nodeMono_lt_nodeAvg x hxiso hxmem)
    (fun y hy => nodeMono_le_nodeAvg y (hall y hy))

/-- Witness for C3: methane-like single carbon with three hydrogens. -/
theorem C3_witness :
    monoisotopicMass [⟨6, 3, none⟩] < averageMass [⟨6, 3, none⟩] :=
  C3_mono_lt_avg _ (by decide) ⟨⟨6, 3, none⟩, by decide, rfl, by decide⟩

/-! ### One-step unfolding lemmas for the bracket-aware scans -/

theorem maxRingAux_cons (inB : Bool) (c : Char) (rest : List Char) :
    maxRingAux inB (c :: rest) =
      if c = '[' then maxRingAux true rest
      else if c = ']' then maxRingAux false rest
      else if inB then maxRingAux true rest
      else if c = '%' then
        (match rest with
          | d1 :: d2 :: rest2 =>
            if isDig d1 && isDig d2 then
              Nat.max (10 * (d1.toNat - 48) + (d2.toNat - 48)) (maxRingAux false rest2)
            else maxRingAux false rest2
          | [d1] => if isDig d1 then 10 * (d1.toNat - 48) else 0
          | [] => 0)
      else if isDig c then Nat.max (c.toNat - 48) (maxRingAux false rest)
      else maxRingAux false rest := by
  rw [maxRingAux.eq_def]

theorem renAux_cons (off : Nat) (inB : Bool) (c : Char) (rest : List Char) :
    renAux off inB (c :: rest) =
      if c = '[' then c :: renAux off true rest
      else if c = ']' then c :: renAux off false rest
      else if inB then c :: renAux off true rest
      else if c = '%' then
        (match rest with
          | d1 :: d2 :: rest2 =>
            if isDig d1 && isDig d2 then
              '%' :: pad2 (10 * (d1.toNat - 48) + (d2.toNat - 48) + off)
                ++ renAux off false rest2
            else '%' :: d1 :: d2 :: renAux off false rest2
          | [d1] =>
            if isDig d1 then '%' :: pad2 (10 * (d1.toNat - 48) + off)
            else ['%', d1, '0']
          | [] => '%' :: pad2 off)
      else if isDig c then emitDigit (c.toNat - 48 + off) ++ renAux off false rest
      else c :: renAux off false rest := by
  rw [renAux.eq_def]

theorem scanOk_cons (inB : Bool) (c : Char) (rest : List Char) :
    scanOk inB (c :: rest) =
      if c = '[' then scanOk true rest
      else if c = ']' then scanOk false rest
      else if inB then scanOk true rest
      else if c = '%' then
        (match rest with
          | _ :: _ :: rest2 => scanOk false rest2
          | _ => false)
      else scanOk false rest := by
  rw [scanOk.eq_def]

theorem bool_not_true {b : Bool} (h : ¬b = true) : b = false := by
  cases b <;> simp_all

/-! ### The highest ring number never exceeds 99 -/

theorem maxRingAux_le (inB : Bool) (l : List Char) : maxRingAux inB l ≤ 99 := by
  induction inB, l using maxRingAux.induct with
  | case1 => simp [maxRingAux]
  | case2 _ _ ih => simpa [maxRingAux_cons] using ih
  | case3 _ _ _ ih => simpa [maxRingAux_cons] using ih
  | case4 c _ hc1 hc2 ih => simpa [maxRingAux_cons, hc1, hc2] using ih
  | case5 inB hB d1 d2 rest2 hdig _ _ ih =>
    rw [bool_not_true hB]
    have h1 := isDig_bounds d1 (by simp [Bool.and_eq_true] at hdig; exact hdig.1)
    have h2 := isDig_bounds d2 (by simp [Bool.and_eq_true] at hdig; exact hdig.2)
    simp [maxRingAux_cons, hdig, Nat.max_le]
    exact ⟨by omega, ih⟩
  | case6 inB hB d1 d2 rest2 hdig _ _ ih =>
    rw [bool_not_true hB]
    simp [maxRingAux_cons, hdig]
    exact ih
  | case7 inB hB d1 hdig _ _ =>
    rw [bool_not_true hB]
    have h1 := isDig_bounds d1 hdig
    simp [maxRingAux_cons, hdig]
    omega
  | case8 inB hB d1 hdig _ _ =>
    rw [bool_not_true hB]
    simp [maxRingAux_cons, hdig]
  | case9 inB hB _ _ =>
    rw [bool_not_true hB]
    simp [maxRingAux_cons]
  | case10 inB c rest hc1 hc2 hB hc3 hdig ih =>
    rw [bool_not_true hB]
    have h1 := isDig_bounds c hdig
    simp [maxRingAux_cons, hc1, hc2, hc3, hdig, Nat.max_le]
    exact ⟨by omega, ih⟩
  | case11 inB c rest hc1 hc2 hB hc3 hdig ih =>
    rw [bool_not_true hB]
    simpa [maxRingAux_cons, hc1, hc2, hc3, hdig] using ih

theorem maxRing_le (f : List Char) : maxRing f ≤ 99 := maxRingAux_le false f

/-- C9: `max_ring_number` never exceeds 99 on any input (a bare digit
contributes at most 9, a `%dd` pair at most 99), so the overflow guard in
`build_linear_smiles` never fires — assembly always succeeds — and no input
whatsoever makes `homopolymer` return `RingNumberOverflow`. -/
theorem C9_overflow_unreachable :
    (∀ f : List Char, maxRing f ≤ 99)
    ∧ (∀ (f : List Char) (n : Nat),
        buildLinear f n
          = .ok (concatAll ((List.range n).map (fun i => renumberRC f (offsetFor f i)))))
    ∧ ∀ (bs : BigSmiles) (strategy : BuildStrategy) (mr ms : Nat),
        homopolymer bs strategy ≠ .error (.ringNumberOverflow mr ms) := by
  have hbuild : ∀ (f : List Char) (n : Nat),
      buildLinear f n
        = .ok (concatAll ((List.range n).map (fun i => renumberRC f (offsetFor f i)))) := by
    intro f n
    have := maxRing_le f
    simp [buildLinear]
    omega
  refine ⟨maxRing_le, hbuild, ?_⟩
  intro bs strategy mr ms h
  cases hfs : findFirstStochastic bs with
  | none => simp [homopolymer, hfs] at h
  | some stoch =>
    simp only [homopolymer, hfs] at h
    by_cases hlen : stoch.repeatUnits.length ≠ 1
    · rw [if_pos hlen] at h; simp at h
    · rw [if_neg hlen] at h
      cases strategy with
      | byRepeatCount n =>
        simp only [resolveN] at h
        by_cases hn : n = 0
        · rw [if_pos hn] at h; simp at h
        · rw [if_neg hn, hbuild] at h; simp at h
      | byTargetMn t => simp [resolveN] at h
      | byExactMass t => simp [resolveN] at h

/-! ### Assembly with no ring closures -/

theorem renumberRC_zero (f : List Char) : renumberRC f 0 = f := by
  simp [renumberRC]

theorem copies_eq_replicate (f : List Char) (h0 : maxRing f = 0) (n : Nat) :
    (List.range n).map (fun i => renumberRC f (offsetFor f i))
      = List.replicate n f := by
  have hfun : ∀ i : Nat, renumberRC f (offsetFor f i) = f := by
    intro i
    rw [offsetFor, h0, Nat.mul_zero, renumberRC_zero]
  calc (List.range n).map (fun i => renumberRC f (offsetFor f i))
      = (List.range n).map (fun _ => f) := by
        apply List.map_congr_left
        intro i _
        exact hfun i
    _ = List.replicate (List.range n).length f := map_const_eq_replicate _ f
    _ = List.replicate n f := by rw [List.length_range]

/-- C6: for a fragment with no ring-closure markers every copy's offset is
`slot × 0 = 0`, so every copy is emitted verbatim; assembling `n2` copies
equals assembling `n1` copies followed by `n2 − n1` further unmodified
copies of the fragment. -/
theorem C6_no_rings_concat (f : List Char) (n1 n2 : Nat) (h0 : maxRing f = 0)
    (hpos : 0 < n1) (hlt : n1 < n2) :
    buildLinear f n1 = .ok (concatAll (List.replicate n1 f))
    ∧ buildLinear f n2
      = .ok (concatAll (List.replicate n1 f)
          ++ concatAll (List.replicate (n2 - n1) f)) := by
  have hmr : ¬ maxRing f > 99 := by omega
  constructor
  · simp only [buildLinear, if_neg hmr, copies_eq_replicate f h0]
  · simp only [buildLinear, if_neg hmr, copies_eq_replicate f h0]
    have hsplit : List.replicate n2 f
        = List.replicate n1 f ++ List.replicate (n2 - n1) f := by
      rw [← List.replicate_add]
      congr 1
      omega
    rw [hsplit, concatAll_append]

/-- Witness for C6 at the polyethylene fragment `CC`, `n1 = 1`, `n2 = 3`. -/
theorem C6_witness :
    buildLinear ['C', 'C'] 1 = .ok (concatAll (List.replicate 1 ['C', 'C']))
    ∧ buildLinear ['C', 'C'] 3
      = .ok (concatAll (List.replicate 1 ['C', 'C'])
          ++ concatAll (List.replicate 2 ['C', 'C'])) :=
  C6_no_rings_concat ['C', 'C'] 1 3 (by decide) (by decide) (by decide)

/-- C7: for a fragment whose highest ring-closure number is exactly 1 the
cycle length is `99 / 1 = 99`, so copy index 99 gets slot `99 mod 99 = 0`
and offset 0: the 100th copy of the assembly is emitted with markers
numerically identical to the first copy (both are the fragment verbatim). -/
theorem C7_ring_recycled (f : List Char) (h : maxRing f = 1) :
    buildLinear f 100
      = .ok (concatAll ((List.range 100).map (fun i => renumberRC f (offsetFor f i))))
    ∧ ((List.range 100).map (fun i => renumberRC f (offsetFor f i)))[99]? = some f
    ∧ ((List.range 100).map (fun i => renumberRC f (offsetFor f i)))[0]? = some f := by
  have hmr : ¬ maxRing f > 99 := by omega
  have h99 : offsetFor f 99 = 0 := by simp [offsetFor, cycleLen, h]
  have h0 : offsetFor f 0 = 0 := by simp [offsetFor, cycleLen, h]
  refine ⟨by simp only [buildLinear, if_neg hmr], ?_, ?_⟩
  · simp [List.getElem?_map, List.getElem?_range, h99, renumberRC_zero]
  · simp [List.getElem?_map, List.getElem?_range, h0, renumberRC_zero]

/-- Witness for C7 at the cyclopropane-like fragment `C1CC1`. -/
theorem C7_witness :
    buildLinear ['C', '1', 'C', 'C', '1'] 100
      = .ok (concatAll ((List.range 100).map
          (fun i => renumberRC ['C', '1', 'C', 'C', '1']
            (offsetFor ['C', '1', 'C', 'C', '1'] i))))
    ∧ ((List.range 100).map (fun i => renumberRC ['C', '1', 'C', 'C', '1']
        (offsetFor ['C', '1', 'C', 'C', '1'] i)))[99]?
      = some ['C', '1', 'C', 'C', '1'] :=
  ⟨(C7_ring_recycled ['C', '1', 'C', 'C', '1'] (by decide)).1,
   (C7_ring_recycled ['C', '1', 'C', 'C', '1'] (by decide)).2.1⟩

/-! ### Splitting the renumbering scan at a well-formed prefix -/

theorem renAux_append (off : Nat) (t : List Char) :
    ∀ (inB : Bool) (a : List Char), scanOk inB a = true →
      renAux off inB (a ++ t) = renAux off inB a ++ renAux off false t := by
  intro inB a
  induction inB, a using scanOk.induct with
  | case1 inB =>
    intro h
    have hB : inB = false := by revert h; cases inB <;> simp [scanOk]
    subst hB
    simp [renAux]
  | case2 inB rest ih =>
    intro h
    rw [scanOk_cons] at h
    simp at h
    simp [renAux_cons, ih h]
  | case3 inB rest hne ih =>
    intro h
    rw [scanOk_cons] at h
    simp at h
    simp [renAux_cons, ih h]
  | case4 c rest hc1 hc2 ih =>
    intro h
    rw [scanOk_cons] at h
    simp [hc1, hc2] at h
    simp [renAux_cons, hc1, hc2, ih h]
  | case5 inB hB d1 d2 rest2 hp1 hp2 ih =>
    intro h
    rw [bool_not_true hB] at h ⊢
    rw [scanOk_cons] at h
    simp at h
    by_cases hd : (isDig d1 && isDig d2) = true
    · simp [renAux_cons, hd, ih h]
    · simp [renAux_cons, hd, ih h]
  | case6 inB rest hB hshort hp1 hp2 =>
    intro h
    rw [bool_not_true hB] at h
    rw [scanOk_cons] at h
    rcases rest with _ | ⟨d, _ | ⟨e, r⟩⟩
    · simp at h
    · simp at h
    · exact absurd rfl (by intro hh; exact hshort d e r hh)
  | case7 inB c rest hc1 hc2 hB hc4 ih =>
    intro h
    rw [bool_not_true hB] at h ⊢
    rw [scanOk_cons] at h
    simp [hc1, hc2, hc4] at h
    by_cases hdg : isDig c = true
    · simp [renAux_cons, hc1, hc2, hc4, hdg, ih h]
    · simp [renAux_cons, hc1, hc2, hc4, hdg, ih h]

theorem buildLinear_ok (f : List Char) (n : Nat) :
    buildLinear f n
      = .ok (concatAll ((List.range n).map (fun i => renumberRC f (offsetFor f i)))) := by
  have := maxRing_le f
  simp [buildLinear]
  omega

theorem renAux_inBracket (off : Nat) (b : List Char) :
    ∀ m : List Char, (∀ c ∈ m, c ≠ '[' ∧ c ≠ ']') →
      renAux off true (m ++ ']' :: b) = m ++ ']' :: renAux off false b := by
  intro m
  induction m with
  | nil =>
    intro _
    simp [renAux_cons]
  | cons c m' ih =>
    intro hm
    have hc := hm c (List.mem_cons_self c m')
    have hm' := fun x hx => hm x (List.mem_cons_of_mem _ hx)
    simp [renAux_cons, hc.1, hc.2, ih hm']

/-- C4: renumbering never touches the inside of a bracketed atom: for a
fragment `a ++ "[" ++ m ++ "]" ++ b` whose prefix `a` is consumed cleanly by
the bracket-aware scan (ending outside a bracket) and whose bracket body `m`
contains no bracket characters, every offset maps the fragment to the
renumbering of `a`, the bracket block verbatim, and the renumbering of `b`;
consequently assembling the fragment with any `n` produces exactly `n`
copies, each containing the bracket block `[m]` verbatim. -/
theorem C4_bracket_digits_preserved (a m b : List Char)
    (hA : scanOk false a = true) (hm : ∀ c ∈ m, c ≠ '[' ∧ c ≠ ']') :
    (∀ off, renumberRC (a ++ '[' :: m ++ ']' :: b) off
        = renumberRC a off ++ '[' :: m ++ ']' :: renumberRC b off)
    ∧ ∀ n, ∃ copies : List (List Char × List Char),
        copies.length = n ∧
        buildLinear (a ++ '[' :: m ++ ']' :: b) n
          = .ok (concatAll (copies.map (fun p => p.1 ++ '[' :: m ++ ']' :: p.2))) := by
  have hsplit : ∀ off, renumberRC (a ++ '[' :: m ++ ']' :: b) off
      = renumberRC a off ++ '[' :: m ++ ']' :: renumberRC b off := by
    intro off
    by_cases hz : off = 0
    · subst hz
      simp [renumberRC]
    · simp only [renumberRC, if_neg hz]
      rw [List.append_assoc]
      rw [renAux_append off ('[' :: m ++ ']' :: b) false a hA]
      rw [List.cons_append, renAux_cons]
      simp [renAux_inBracket off b m hm, List.append_assoc]
  refine ⟨hsplit, ?_⟩
  intro n
  refine ⟨(List.range n).map (fun i =>
    (renumberRC a (offsetFor (a ++ '[' :: m ++ ']' :: b) i),
     renumberRC b (offsetFor (a ++ '[' :: m ++ ']' :: b) i))), by simp, ?_⟩
  rw [buildLinear_ok]
  congr 1
  congr 1
  rw [List.map_map]
  apply List.map_congr_left
  intro i _
  simpa [Function.comp] using hsplit (offsetFor (a ++ '[' :: m ++ ']' :: b) i)

/-- Witness for C4: fragment `C[13C]C` (a carbon-13 bracket atom between two
carbons), split as `a = "C"`, `m = "13C"`, `b = "C"`. -/
theorem C4_witness :
    (∀ off, renumberRC (['C'] ++ '[' :: ['1', '3', 'C'] ++ ']' :: ['C']) off
        = renumberRC ['C'] off ++ '[' :: ['1', '3', 'C'] ++ ']' :: renumberRC ['C'] off)
    ∧ ∀ n, ∃ copies : List (List Char × List Char),
        copies.length = n ∧
        buildLinear (['C'] ++ '[' :: ['1', '3', 'C'] ++ ']' :: ['C']) n
          = .ok (concatAll (copies.map
              (fun p => p.1 ++ '[' :: ['1', '3', 'C'] ++ ']' :: p.2))) :=
  C4_bracket_digits_preserved ['C'] ['1', '3', 'C'] ['C'] (by decide) (by decide)

/-- C8 (counterexample): the claim says a rewritten marker value above 9 is
always emitted in the zero-padded two-digit `%dd` form; but `{:02}` is only
a minimum width — for the bare digit `1` and offset 99 the new value 100 is
emitted as the four-character `%100`, not a three-character `%dd` marker. -/
theorem C8_counterexample :
    renumberRC ['1'] 99 = ['%', '1', '0', '0']
    ∧ (renumberRC ['1'] 99).length ≠ 3 := by
  constructor
  · rfl
  · decide

/-! The amended C8 theorem itself appears at the end of the file, after the
per-branch equations of the renumbering scan that its proof rewrites with. -/

/-! ### Per-branch equations for the two scans -/

theorem pad2_read (v : Nat) (h : v ≤ 99) :
    ∃ c1 c2, pad2 v = [c1, c2] ∧ isDig c1 = true ∧ isDig c2 = true
      ∧ 10 * (c1.toNat - 48) + (c2.toNat - 48) = v := by
  have hq : v / 10 < 10 := by omega
  have hr : v % 10 < 10 := by omega
  obtain ⟨hq1, hq2⟩ := digitChar_spec (v / 10) hq
  obtain ⟨hr1, hr2⟩ := digitChar_spec (v % 10) hr
  exact ⟨Nat.digitChar (v / 10), Nat.digitChar (v % 10), pad2_eq v h, hq1, hr1,
    by rw [hq2, hr2]; omega⟩

theorem maxRingAux_open (inB : Bool) (rest : List Char) :
    maxRingAux inB ('[' :: rest) = maxRingAux true rest := by
  simp [maxRingAux_cons]

theorem maxRingAux_close (inB : Bool) (rest : List Char) :
    maxRingAux inB (']' :: rest) = maxRingAux false rest := by
  simp [maxRingAux_cons]

theorem maxRingAux_inB (c : Char) (rest : List Char) (hc1 : c ≠ '[')
    (hc2 : c ≠ ']') : maxRingAux true (c :: rest) = maxRingAux true rest := by
  simp [maxRingAux_cons, hc1, hc2]

theorem maxRingAux_pct (c1 c2 : Char) (h1 : isDig c1 = true) (h2 : isDig c2 = true)
    (l : List Char) :
    maxRingAux false ('%' :: c1 :: c2 :: l)
      = Nat.max (10 * (c1.toNat - 48) + (c2.toNat - 48)) (maxRingAux false l) := by
  simp [maxRingAux_cons, h1, h2]

theorem maxRingAux_pctBad (d1 d2 : Char) (hd : (isDig d1 && isDig d2) = false)
    (l : List Char) :
    maxRingAux false ('%' :: d1 :: d2 :: l) = maxRingAux false l := by
  simp [maxRingAux_cons, hd]

theorem maxRingAux_pct1 (d1 : Char) (hd : isDig d1 = true) :
    maxRingAux false ['%', d1] = 10 * (d1.toNat - 48) := by
  simp [maxRingAux_cons, hd]

theorem maxRingAux_pct1Bad (d1 : Char) (hd : isDig d1 = false) :
    maxRingAux false ['%', d1] = 0 := by
  simp [maxRingAux_cons, hd]

theorem maxRingAux_pct0 : maxRingAux false ['%'] = 0 := by
  simp [maxRingAux_cons]

theorem maxRingAux_digit (c : Char) (rest : List Char) (hd : isDig c = true) :
    maxRingAux false (c :: rest)
      = Nat.max (c.toNat - 48) (maxRingAux false rest) := by
  have hne := isDig_ne_special c hd
  simp [maxRingAux_cons, hne.1, hne.2.1, hne.2.2, hd]

theorem maxRingAux_other (c : Char) (rest : List Char) (hc1 : c ≠ '[')
    (hc2 : c ≠ ']') (hc3 : c ≠ '%') (hd : isDig c = false) :
    maxRingAux false (c :: rest) = maxRingAux false rest := by
  simp [maxRingAux_cons, hc1, hc2, hc3, hd]

theorem renAux_open (off : Nat) (inB : Bool) (rest : List Char) :
    renAux off inB ('[' :: rest) = '[' :: renAux off true rest := by
  simp [renAux_cons]

theorem renAux_close (off : Nat) (inB : Bool) (rest : List Char) :
    renAux off inB (']' :: rest) = ']' :: renAux off false rest := by
  simp [renAux_cons]

theorem renAux_inB (off : Nat) (c : Char) (rest : List Char) (hc1 : c ≠ '[')
    (hc2 : c ≠ ']') :
    renAux off true (c :: rest) = c :: renAux off true rest := by
  simp [renAux_cons, hc1, hc2]

theorem renAux_pct (off : Nat) (d1 d2 : Char) (h1 : isDig d1 = true)
    (h2 : isDig d2 = true) (l : List Char) :
    renAux off false ('%' :: d1 :: d2 :: l)
      = '%' :: pad2 (10 * (d1.toNat - 48) + (d2.toNat - 48) + off)
        ++ renAux off false l := by
  simp [renAux_cons, h1, h2]

theorem renAux_pctBad (off : Nat) (d1 d2 : Char)
    (hd : (isDig d1 && isDig d2) = false) (l : List Char) :
    renAux off false ('%' :: d1 :: d2 :: l)
      = '%' :: d1 :: d2 :: renAux off false l := by
  simp [renAux_cons, hd]

theorem renAux_pct1 (off : Nat) (d1 : Char) (hd : isDig d1 = true) :
    renAux off false ['%', d1] = '%' :: pad2 (10 * (d1.toNat - 48) + off) := by
  simp [renAux_cons, hd]

theorem renAux_pct1Bad (off : Nat) (d1 : Char) (hd : isDig d1 = false) :
    renAux off false ['%', d1] = ['%', d1, '0'] := by
  simp [renAux_cons, hd]

theorem renAux_pct0 (off : Nat) : renAux off false ['%'] = '%' :: pad2 off := by
  simp [renAux_cons]

theorem renAux_digit (off : Nat) (c : Char) (rest : List Char)
    (hd : isDig c = true) :
    renAux off false (c :: rest)
      = emitDigit (c.toNat - 48 + off) ++ renAux off false rest := by
  have hne := isDig_ne_special c hd
  simp [renAux_cons, hne.1, hne.2.1, hne.2.2, hd]

theorem renAux_other (off : Nat) (c : Char) (rest : List Char) (hc1 : c ≠ '[')
    (hc2 : c ≠ ']') (hc3 : c ≠ '%') (hd : isDig c = false) :
    renAux off false (c :: rest) = c :: renAux off false rest := by
  simp [renAux_cons, hc1, hc2, hc3, hd]

/-! ### Re-scanning renumbered output stays within two-digit range -/

theorem maxRing_renAux_le (off : Nat) :
    ∀ (inB : Bool) (l : List Char), maxRingAux inB l + off ≤ 99 →
      maxRingAux inB (renAux off inB l) ≤ maxRingAux inB l + off := by
  intro inB l
  induction inB, l using maxRingAux.induct with
  | case1 inB =>
    intro _
    simp [renAux, maxRingAux]
  | case2 inB rest ih =>
    intro h
    rw [maxRingAux_open] at h
    rw [renAux_open, maxRingAux_open, maxRingAux_open]
    exact ih h
  | case3 inB rest hne ih =>
    intro h
    rw [maxRingAux_close] at h
    rw [renAux_close, maxRingAux_close, maxRingAux_close]
    exact ih h
  | case4 c rest hc1 hc2 ih =>
    intro h
    rw [maxRingAux_inB c rest hc1 hc2] at h
    rw [renAux_inB off c rest hc1 hc2, maxRingAux_inB c _ hc1 hc2,
      maxRingAux_inB c rest hc1 hc2]
    exact ih h
  | case5 inB hB d1 d2 rest2 hdig _ _ ih =>
    rw [bool_not_true hB]
    intro h
    have hd1 : isDig d1 = true := ((Bool.and_eq_true _ _).mp hdig).1
    have hd2 : isDig d2 = true := ((Bool.and_eq_true _ _).mp hdig).2
    rw [maxRingAux_pct d1 d2 hd1 hd2] at h ⊢
    have hmax := Nat.max_le.mp (Nat.le_sub_of_add_le h)
    have hv : 10 * (d1.toNat - 48) + (d2.toNat - 48) + off ≤ 99 := by
      have := hmax.1; omega
    have hrest : maxRingAux false rest2 + off ≤ 99 := by
      have := hmax.2; omega
    obtain ⟨c1, c2, hp, hc1, hc2, hval⟩ := pad2_read _ hv
    rw [renAux_pct off d1 d2 hd1 hd2, hp]
    simp only [List.cons_append, List.nil_append]
    rw [maxRingAux_pct c1 c2 hc1 hc2, hval]
    have hout := ih hrest
    exact Nat.max_le.mpr ⟨Nat.add_le_add_right (Nat.le_max_left _ _) _,
      le_trans hout (Nat.add_le_add_right (Nat.le_max_right _ _) _)⟩
  | case6 inB hB d1 d2 rest2 hdig _ _ ih =>
    rw [bool_not_true hB]
    intro h
    have hd : (isDig d1 && isDig d2) = false := bool_not_true hdig
    rw [maxRingAux_pctBad d1 d2 hd] at h ⊢
    rw [renAux_pctBad off d1 d2 hd, maxRingAux_pctBad d1 d2 hd]
    exact ih h
  | case7 inB hB d1 hd _ _ =>
    rw [bool_not_true hB]
    intro h
    rw [maxRingAux_pct1 d1 hd] at h ⊢
    obtain ⟨c1, c2, hp, hc1, hc2, hval⟩ := pad2_read _ h
    rw [renAux_pct1 off d1 hd, hp]
    rw [show ('%' :: [c1, c2] : List Char) = '%' :: c1 :: c2 :: [] from rfl]
    rw [maxRingAux_pct c1 c2 hc1 hc2, hval]
    simp [maxRingAux]
  | case8 inB hB d1 hd _ _ =>
    rw [bool_not_true hB]
    intro h
    have hd' : isDig d1 = false := bool_not_true hd
    rw [maxRingAux_pct1Bad d1 hd'] at h ⊢
    rw [renAux_pct1Bad off d1 hd']
    rw [show (['%', d1, '0'] : List Char) = '%' :: d1 :: '0' :: [] from rfl]
    rw [maxRingAux_pctBad d1 '0' (by simp [hd']), maxRingAux]
    omega
  | case9 inB hB _ _ =>
    rw [bool_not_true hB]
    intro h
    rw [maxRingAux_pct0] at h ⊢
    obtain ⟨c1, c2, hp, hc1, hc2, hval⟩ := pad2_read off (by omega)
    rw [renAux_pct0 off, hp]
    rw [show ('%' :: [c1, c2] : List Char) = '%' :: c1 :: c2 :: [] from rfl]
    rw [maxRingAux_pct c1 c2 hc1 hc2, hval]
    simp [maxRingAux]
  | case10 inB c rest hc1 hc2 hB hc3 hdg ih =>
    rw [bool_not_true hB]
    intro h
    rw [maxRingAux_digit c rest hdg] at h ⊢
    have hmax := Nat.max_le.mp (Nat.le_sub_of_add_le h)
    have hv : c.toNat - 48 + off ≤ 99 := by have := hmax.1; omega
    have hrest : maxRingAux false rest + off ≤ 99 := by have := hmax.2; omega
    have hih := ih hrest
    rw [renAux_digit off c rest hdg]
    by_cases hsm : c.toNat - 48 + off ≤ 9
    · rw [emitDigit, if_pos hsm]
      obtain ⟨hdg', htn⟩ := digitChar_spec (c.toNat - 48 + off) (by omega)
      simp only [List.cons_append, List.nil_append]
      rw [maxRingAux_digit _ _ hdg', htn]
      rw [show 48 + (c.toNat - 48 + off) - 48 = c.toNat - 48 + off from by omega]
      exact Nat.max_le.mpr ⟨Nat.add_le_add_right (Nat.le_max_left _ _) _,
        le_trans hih (Nat.add_le_add_right (Nat.le_max_right _ _) _)⟩
    · rw [emitDigit, if_neg hsm]
      obtain ⟨c1, c2, hp, hic1, hic2, hval⟩ := pad2_read _ hv
      rw [hp]
      simp only [List.cons_append, List.nil_append]
      rw [maxRingAux_pct c1 c2 hic1 hic2, hval]
      exact Nat.max_le.mpr ⟨Nat.add_le_add_right (Nat.le_max_left _ _) _,
        le_trans hih (Nat.add_le_add_right (Nat.le_max_right _ _) _)⟩
  | case11 inB c rest hc1 hc2 hB hc3 hdg ih =>
    rw [bool_not_true hB]
    intro h
    have hd' : isDig c = false := bool_not_true hdg
    rw [maxRingAux_other c rest hc1 hc2 hc3 hd'] at h ⊢
    rw [renAux_other off c rest hc1 hc2 hc3 hd',
      maxRingAux_other c _ hc1 hc2 hc3 hd']
    exact ih h

/-- C10: for a fragment whose highest ring number `r` satisfies `1 ≤ r`
(and hence `r ≤ 99`), the assembler's offset for every copy index `i` obeys
`offset + r ≤ 99`, and re-scanning the renumbered copy shows every marker it
emits is still at most 99 — the renumberer never leaves the two-digit `%dd`
range during assembly. -/
theorem C10_offsets_bounded (f : List Char) (h1 : 1 ≤ maxRing f) (i : Nat) :
    offsetFor f i + maxRing f ≤ 99
    ∧ maxRing (renumberRC f (offsetFor f i)) ≤ 99 := by
  have hr99 := maxRing_le f
  have hb : offsetFor f i + maxRing f ≤ 99 := by
    have hcy : cycleLen f = 99 / maxRing f := by
      rw [cycleLen, if_neg (by omega)]
    have hdivpos : 0 < 99 / maxRing f := Nat.div_pos (by omega) (by omega)
    have hslot : i % (99 / maxRing f) < 99 / maxRing f := Nat.mod_lt _ hdivpos
    have hsmall : (i % (99 / maxRing f)) % 2 ^ 32 = i % (99 / maxRing f) :=
      Nat.mod_eq_of_lt (lt_of_lt_of_le hslot
        (le_trans (Nat.div_le_self 99 (maxRing f)) (by norm_num)))
    rw [offsetFor, hcy, hsmall]
    have hmul : (i % (99 / maxRing f) + 1) * maxRing f
        ≤ (99 / maxRing f) * maxRing f :=
      Nat.mul_le_mul_right (maxRing f) hslot
    have hdiv : (99 / maxRing f) * maxRing f ≤ 99 := Nat.div_mul_le_self 99 _
    have hexp : (i % (99 / maxRing f) + 1) * maxRing f
        = i % (99 / maxRing f) * maxRing f + maxRing f := by ring
    omega
  have hmm : maxRingAux false f = maxRing f := rfl
  refine ⟨hb, ?_⟩
  by_cases hz : offsetFor f i = 0
  · rw [hz, renumberRC_zero]
    exact hr99
  · rw [renumberRC, if_neg hz]
    have hres := maxRing_renAux_le (offsetFor f i) false f (by
      show maxRingAux false f + offsetFor f i ≤ 99
      omega)
    calc maxRingAux false (renAux (offsetFor f i) false f)
        ≤ maxRingAux false f + offsetFor f i := hres
      _ ≤ 99 := by
        show maxRing f + offsetFor f i ≤ 99
        omega

/-- Witness for C10 at the fragment `C1CC1` and copy index 5. -/
theorem C10_witness :
    offsetFor ['C', '1', 'C', 'C', '1'] 5 + maxRing ['C', '1', 'C', 'C', '1'] ≤ 99
    ∧ maxRing (renumberRC ['C', '1', 'C', 'C', '1']
        (offsetFor ['C', '1', 'C', 'C', '1'] 5)) ≤ 99 :=
  C10_offsets_bounded ['C', '1', 'C', 'C', '1'] (by decide) 5

/-! ### The renumbering scan, characterized position by position -/

theorem renumberRC_append (off : Nat) (hz : off ≠ 0) (p : List Char)
    (hp : scanOk false p = true) (rest : List Char) :
    renumberRC (p ++ rest) off = renumberRC p off ++ renAux off false rest := by
  simp only [renumberRC, if_neg hz]
  exact renAux_append off rest false p hp

/-- C8 (amended): `renumber(fragment, 0)` returns the fragment unchanged.
For every positive offset the scan is characterized at every top-level
position — a position after any prefix `p` the bracket-aware scan consumes
cleanly to an outside-bracket state (`scanOk`), which covers every position
of a well-formed fragment: the output up to there is the renumbering of
`p`, and what follows is determined by the next token.  A bare-digit marker
of value `v` is rewritten to `v + offset`, emitted as a single digit when
the new value is at most 9 and otherwise as `'%'` followed by the value
zero-padded to at least two digits (exactly the two-digit `%dd` form when
at most 99); a `'%'` followed by two digits is rewritten the same way in
the `'%'` form; any other character — brackets included — passes through
unchanged, with the interior of a bracketed atom block copied verbatim; a
`'%'` whose two inspected characters are not both digits passes through
together with them unchanged; and a trailing `'%'` with fewer than two
following characters has its missing characters read as `'0'` (a lone
trailing `'%'` is renumbered as marker value 0, a trailing `'%'`-digit as
ten times that digit, and a trailing `'%'`-non-digit is emitted with an
appended `'0'`). -/
theorem C8_renumber_spec :
    (∀ s, renumberRC s 0 = s)
    ∧ (∀ off, renumberRC [] off = [])
    ∧ (∀ off, off ≠ 0 → ∀ p, scanOk false p = true → ∀ rest,
        renumberRC (p ++ rest) off = renumberRC p off ++ renAux off false rest)
    ∧ (∀ off, off ≠ 0 → ∀ p, scanOk false p = true → ∀ d rest, isDig d = true →
        renumberRC (p ++ d :: rest) off
          = renumberRC p off ++ emitDigit (d.toNat - 48 + off)
            ++ renAux off false rest)
    ∧ (∀ off, off ≠ 0 → ∀ p, scanOk false p = true → ∀ d1 d2 rest,
        isDig d1 = true → isDig d2 = true →
        renumberRC (p ++ '%' :: d1 :: d2 :: rest) off
          = renumberRC p off
            ++ '%' :: pad2 (10 * (d1.toNat - 48) + (d2.toNat - 48) + off)
            ++ renAux off false rest)
    ∧ (∀ off, off ≠ 0 → ∀ p, scanOk false p = true → ∀ c rest,
        isDig c = false → c ≠ '%' →
        renumberRC (p ++ c :: rest) off
          = renumberRC p off
            ++ c :: renAux off (if c = '[' then true else false) rest)
    ∧ (∀ off, off ≠ 0 → ∀ p, scanOk false p = true → ∀ m b,
        (∀ c ∈ m, c ≠ '[' ∧ c ≠ ']') →
        renumberRC (p ++ '[' :: m ++ ']' :: b) off
          = renumberRC p off ++ '[' :: m ++ ']' :: renAux off false b)
    ∧ (∀ off, off ≠ 0 → ∀ p, scanOk false p = true → ∀ d1 d2 rest,
        (isDig d1 && isDig d2) = false →
        renumberRC (p ++ '%' :: d1 :: d2 :: rest) off
          = renumberRC p off ++ '%' :: d1 :: d2 :: renAux off false rest)
    ∧ (∀ off, off ≠ 0 → ∀ p, scanOk false p = true →
        renumberRC (p ++ ['%']) off = renumberRC p off ++ '%' :: pad2 off)
    ∧ (∀ off, off ≠ 0 → ∀ p, scanOk false p = true → ∀ d, isDig d = true →
        renumberRC (p ++ ['%', d]) off
          = renumberRC p off ++ '%' :: pad2 (10 * (d.toNat - 48) + off))
    ∧ (∀ off, off ≠ 0 → ∀ p, scanOk false p = true → ∀ d, isDig d = false →
        renumberRC (p ++ ['%', d]) off
          = renumberRC p off ++ ['%', d, '0']) := by
  refine ⟨renumberRC_zero, ?_, ?_, ?_, ?_, ?_, ?_, ?_, ?_, ?_, ?_⟩
  · intro off
    by_cases hz : off = 0 <;> simp [renumberRC, hz, renAux]
  · intro off hz p hp rest
    exact renumberRC_append off hz p hp rest
  · intro off hz p hp d rest hd
    rw [renumberRC_append off hz p hp, renAux_digit off d rest hd,
      List.append_assoc]
  · intro off hz p hp d1 d2 rest h1 h2
    rw [renumberRC_append off hz p hp, renAux_pct off d1 d2 h1 h2 rest,
      List.append_assoc]
  · intro off hz p hp c rest hnd hnp
    rw [renumberRC_append off hz p hp]
    by_cases hc1 : c = '['
    · subst hc1
      rw [renAux_open]
      simp
    · by_cases hc2 : c = ']'
      · subst hc2
        rw [renAux_close]
        simp
      · rw [renAux_other off c rest hc1 hc2 hnp hnd, if_neg hc1]
  · intro off hz p hp m b hm
    rw [List.append_assoc, renumberRC_append off hz p hp, List.cons_append,
      renAux_open, renAux_inBracket off b m hm]
    simp [List.append_assoc]
  · intro off hz p hp d1 d2 rest hd
    rw [renumberRC_append off hz p hp, renAux_pctBad off d1 d2 hd rest]
  · intro off hz p hp
    rw [renumberRC_append off hz p hp, renAux_pct0 off]
  · intro off hz p hp d hd
    rw [renumberRC_append off hz p hp, renAux_pct1 off d hd]
  · intro off hz p hp d hd
    rw [renumberRC_append off hz p hp, renAux_pct1Bad off d hd]

/-- Witness for C8 at offset 5 with non-empty prefixes: identity at 0, the
digit `3` after the prefix `CC` rewritten to 8, the bracket block `[13C]`
after the prefix `C` copied verbatim, and a trailing `'%'` after `C` read
as marker 0 and emitted as `%05`. -/
theorem C8_witness :
    renumberRC ['C', '[', '1', '3', 'C', ']'] 0 = ['C', '[', '1', '3', 'C', ']']
    ∧ renumberRC (['C', 'C'] ++ '3' :: ['C']) 5
      = renumberRC ['C', 'C'] 5 ++ emitDigit 8 ++ renAux 5 false ['C']
    ∧ renumberRC (['C'] ++ '[' :: ['1', '3', 'C'] ++ ']' :: ['1']) 5
      = renumberRC ['C'] 5 ++ '[' :: ['1', '3', 'C'] ++ ']' :: renAux 5 false ['1']
    ∧ renumberRC (['C'] ++ ['%']) 5 = renumberRC ['C'] 5 ++ '%' :: pad2 5 := by
  refine ⟨C8_renumber_spec.1 _, ?_, ?_, ?_⟩
  · have h := C8_renumber_spec.2.2.2.1 5 (by decide) ['C', 'C'] (by decide)
      '3' ['C'] (by decide)
    simpa using h
  · exact C8_renumber_spec.2.2.2.2.2.2.1 5 (by decide) ['C'] (by decide)
      ['1', '3', 'C'] ['1'] (by decide)
  · exact C8_renumber_spec.2.2.2.2.2.2.2.2.1 5 (by decide) ['C'] (by decide)
